import Mathlib

/-!
Verification of the MCP multi-server client (`mcp-client/client.py`).

The development shallowly embeds the client:
* `initializeSessions` / `registerTools` model the tool-namespace construction of
  `MCPClient.initialize_sessions` (lines 35-54): per server `i` the id `server{i}`
  is generated and every advertised tool is inserted into `tool_mapping` under the
  key `server_id + "_" + tool.name`, the value being the pair (session, original name);
  the session object of server `i` is identified with the index `i`.
* `processQuery` models `MCPClient.process_query` (lines 104-173): the message list
  starts with the user query, `available_tools` is computed once from the sessions'
  current `list_tools()`, an initial inference call is made, and then the while loop
  processes tool calls and re-queries the model until a response carries no tool calls.
  The external world (model responses, tool outcomes, `json.loads`, the providers'
  advertised tools over time) is an explicit environment `Env`.
* `initializeSessionsRes` / `cleanup` model the resource side: contexts entered on the
  `AsyncExitStack` in acquisition order, and `aclose()` releasing them in reverse and
  emptying the stack (the `contextlib` contract), invoked from `main`'s `finally`.

The loop is driven by explicit fuel; `LoopOut.fuelOut` means the while loop was still
running after the given number of iterations (the code has no turn guard of its own).
-/

namespace MCPLearn

/-- A tool as advertised by a server through `list_tools()`: name, description and
input schema; the schema object is treated as an opaque string. -/
structure ToolDesc where
  name : String
  description : String
  schema : String
deriving DecidableEq

/-- One entry of the `available_tools` array built in `process_query` (lines 117-124):
the prefixed function name, the description and the schema forwarded verbatim. -/
structure OpenAITool where
  name : String
  description : String
  parameters : String
deriving DecidableEq

/-- One tool call requested by the model: its id, `function.name` (a prefixed name)
and the serialized argument string `function.arguments`. -/
structure ToolCall where
  id : String
  name : String
  arguments : String
deriving DecidableEq

/-- The relevant part of `response.choices[0].message`: optional text content and the
list of requested tool calls (`None` and the empty list are both modelled as `[]`). -/
structure ModelResponse where
  content : Option String
  tool_calls : List ToolCall
deriving DecidableEq

/-- A message of the conversation list `messages`: the initial user message, the
assistant-role record of one tool call (lines 151-158) or the tool-role record of
its result (line 159). -/
inductive Msg where
  | user (content : String)
  | assistantToolCall (id : String) (name : String) (args : String)
  | tool (tool_call_id : String) (content : String)
deriving DecidableEq

/-- Outcome of `session.call_tool`: a result object carrying `.content`, or a raised
exception with its text. -/
inductive ToolOutcome where
  | ok (content : String)
  | raiseExc (msg : String)
deriving DecidableEq

/-- Python exceptions that can escape `process_query` on the modelled paths:
`json.loads` raising on a malformed argument string (line 140), and the
`AttributeError` raised at line 148 when `result` is the plain dict built in the
`except` branch (line 145), which has no `.content` attribute. -/
inductive PyError where
  | jsonDecodeError (s : String)
  | attributeError
deriving DecidableEq

/-- The tool mapping `prefixed_name -> (session, original_tool_name)`; a session is
identified with the index of its server. -/
abbrev ToolMapping := List (String × Nat × String)

/-- Python dict assignment `d[k] = v`: replaces the value in place when the key is
present, otherwise appends (dicts preserve insertion order). -/
def insertOverwrite (m : ToolMapping) (k : String) (v : Nat × String) : ToolMapping :=
  match m with
  | [] => [(k, v)]
  | (k', v') :: rest => if k' = k then (k, v) :: rest else (k', v') :: insertOverwrite rest k v

/-- Python dict lookup, also used for the `in` test at line 138. -/
def lookupMapping (m : ToolMapping) (k : String) : Option (Nat × String) :=
  match m with
  | [] => none
  | (k', v) :: rest => if k' = k then some v else lookupMapping rest k

/-- Line 41: `server_id = f"server{i}"`. -/
def serverId (i : Nat) : String := "server" ++ Nat.repr i

/-- Lines 50-53: `for tool in response.tools: tool_mapping[f"s .. _ .. name"] = (session, tool.name)`. -/
def registerTools (sid : String) (session : Nat) (tools : List ToolDesc) (m : ToolMapping) :
    ToolMapping :=
  tools.foldl (fun acc t => insertOverwrite acc (sid ++ "_" ++ t.name) (session, t.name)) m

/-- The registration loop of `initialize_sessions` starting at server index `i`. -/
def initFrom : Nat → List (List ToolDesc) → ToolMapping → ToolMapping
  | _, [], m => m
  | i, ts :: rest, m => initFrom (i + 1) rest (registerTools (serverId i) i ts m)

/-- Lines 35-54: initialize all servers; server `i` gets id `server{i}` and its
advertised tools are registered under prefixed names. Only the namespace aspect is
modelled here; the resource aspect lives in `initializeSessionsRes`. -/
def initializeSessions (servers : List (List ToolDesc)) : ToolMapping :=
  initFrom 0 servers []

/-- Observable events of one `process_query` run, in temporal order: a performed
`call_tool` invocation (session, original name, parsed arguments) or an inference
call made with a given tool catalog. -/
inductive Event where
  | call (session : Nat) (name : String) (args : String)
  | inference (catalog : List OpenAITool)
deriving DecidableEq

/-- The mutable data of one `process_query` run: the conversation list `messages`,
the output fragments `final_text`, the number of inference calls made so far, and
the event trace. -/
structure QState where
  messages : List Msg
  final_text : List String
  infCalls : Nat
  trace : List Event
deriving DecidableEq

/-- The external world as `process_query` sees it.
`listTools n` is what the sessions' `list_tools()` would return at the time of the
`n`-th inference call of the query (the code queries it only at time `0`);
`respond n` is the model's response to the `n`-th `chat.completions.create` call;
`callTool sess name args` is the outcome of `session.call_tool(name, args)`;
`parse` models `json.loads` (`none` means it raises), with parsed values and their
re-serialization modelled as strings. -/
structure Env where
  listTools : Nat → List (String × List ToolDesc)
  respond : Nat → ModelResponse
  callTool : Nat → String → String → ToolOutcome
  parse : String → Option String

/-- Lines 112-124: the `available_tools` array, one entry per tool of each session,
with the prefixed name. -/
def availableTools (sessions : List (String × List ToolDesc)) : List OpenAITool :=
  sessions.foldr
    (fun p acc => (p.2.map fun t => ⟨p.1 ++ "_" ++ t.name, t.description, t.schema⟩) ++ acc) []

/-- Lines 136-163: handling of one element of `message.tool_calls`.
When the prefixed name resolves, the argument string is parsed (a failure raises out,
line 140), the tool is invoked, and on success two conversation messages and two
transcript fragments are appended.  When `call_tool` raises, the `except` branch
(line 145) binds `result` to a plain dict, so after appending the call annotation
(line 147) the access `result.content` at line 148 raises `AttributeError`; the
invocation itself did already happen, which the error state records.
An unresolved name only appends a note to `final_text` (lines 161-163). -/
def processOneToolCall (env : Env) (mapping : ToolMapping) (tc : ToolCall) (s : QState) :
    Except (PyError × QState) QState :=
  match lookupMapping mapping tc.name with
  | some (session, originalName) =>
    match env.parse tc.arguments with
    | none => .error (.jsonDecodeError tc.arguments, s)
    | some toolArgs =>
      match env.callTool session originalName toolArgs with
      | .ok content =>
        .ok { s with
          trace := s.trace ++ [.call session originalName toolArgs]
          final_text := s.final_text ++
            ["[调用工具 " ++ tc.name ++ " 参数: " ++ toolArgs ++ "]", "工具结果: " ++ content]
          messages := s.messages ++
            [.assistantToolCall tc.id tc.name toolArgs, .tool tc.id content] }
      | .raiseExc _ =>
        .error (.attributeError,
          { s with
            trace := s.trace ++ [.call session originalName toolArgs]
            final_text := s.final_text ++
              ["[调用工具 " ++ tc.name ++ " 参数: " ++ toolArgs ++ "]"] })
  | none =>
    .ok { s with final_text := s.final_text ++ ["工具 " ++ tc.name ++ " 未找到"] }

/-- The `for tool_call in message.tool_calls` loop (lines 136-163); a raised
exception aborts the remaining iterations. -/
def processToolCalls (env : Env) (mapping : ToolMapping) :
    List ToolCall → QState → Except (PyError × QState) QState
  | [], s => .ok s
  | tc :: rest, s =>
    match processOneToolCall env mapping tc s with
    | .ok s' => processToolCalls env mapping rest s'
    | .error e => .error e

/-- Python truthiness of `message.content` at line 171: `None` and `""` are falsy. -/
def contentTruthy : Option String → Bool
  | none => false
  | some c => c != ""

/-- One iteration of the while loop (lines 135-172): process every tool call of the
current message, then make the next inference call (lines 165-169) with the same
`available_tools` value computed before the loop, and append its content to
`final_text` when truthy (lines 170-172). -/
def runIteration (env : Env) (mapping : ToolMapping) (tools : List OpenAITool)
    (msg : ModelResponse) (s : QState) : Except (PyError × QState) (ModelResponse × QState) :=
  match processToolCalls env mapping msg.tool_calls s with
  | .error e => .error e
  | .ok s' =>
    let msg' := env.respond s'.infCalls
    let s'' : QState :=
      { s' with infCalls := s'.infCalls + 1, trace := s'.trace ++ [.inference tools] }
    if contentTruthy msg'.content then
      .ok (msg', { s'' with final_text := s''.final_text ++ [msg'.content.getD ""] })
    else
      .ok (msg', s'')

/-- Result of running the query loop under a fuel bound: the function returned
normally, a Python exception escaped, or the while loop was still running after
the given number of iterations. -/
inductive LoopOut where
  | done (s : QState)
  | raised (e : PyError) (s : QState)
  | fuelOut (s : QState)
deriving DecidableEq

/-- The state carried by whichever way the loop ended. -/
def LoopOut.state : LoopOut → QState
  | .done s => s
  | .raised _ s => s
  | .fuelOut s => s

/-- Whether the while loop was still running when the fuel ran out. -/
def LoopOut.stillLooping : LoopOut → Bool
  | .fuelOut _ => true
  | _ => false

/-- The while loop of `process_query` (lines 135-172), with explicit fuel. -/
def queryLoop (env : Env) (mapping : ToolMapping) (tools : List OpenAITool) :
    Nat → ModelResponse → QState → LoopOut
  | fuel, msg, s =>
    if msg.tool_calls.isEmpty then .done s
    else
      match fuel with
      | 0 => .fuelOut s
      | fuel' + 1 =>
        match runIteration env mapping tools msg s with
        | .error (e, s') => .raised e s'
        | .ok (msg', s') => queryLoop env mapping tools fuel' msg' s'

/-- The state right after the initial inference call of `process_query`
(lines 110-133): only the user message in the conversation, the initial content
(or `""`) as first transcript fragment, one inference call made. -/
def initialState (env : Env) (query : String) : QState :=
  { messages := [.user query]
    final_text := [(env.respond 0).content.getD ""]
    infCalls := 1
    trace := [.inference (availableTools (env.listTools 0))] }

/-- `process_query` (lines 104-173): `messages` starts with the user query,
`available_tools` is computed once from the sessions' current `list_tools()`
(lines 112-124), the initial inference call is made (lines 126-133) and its content
(or `""`) becomes the first transcript fragment, then the tool-call loop runs. -/
def processQuery (env : Env) (mapping : ToolMapping) (query : String) (fuel : Nat) : LoopOut :=
  queryLoop env mapping (availableTools (env.listTools 0)) fuel (env.respond 0)
    (initialState env query)

/-- Line 173: the returned string is the newline-join of `final_text`. -/
def outputOf (s : QState) : String := String.intercalate "\n" s.final_text

/-! Resource lifecycle (`initialize_sessions` lines 35-46, `cleanup` lines 82-86,
`main` lines 195-199). -/

/-- A resource entered on the exit stack during the initialization of server `i`:
the stdio transport (`stdio_client`) or the client session (`ClientSession`). -/
inductive Res where
  | transport (i : Nat)
  | session (i : Nat)
deriving DecidableEq

/-- The server index a resource belongs to. -/
def Res.idx : Res → Nat
  | .transport i => i
  | .session i => i

/-- How far the initialization of one server gets.  `stdio_client` failing to enter
pushes nothing; `ClientSession` failing to enter leaves only the transport pushed;
`session.initialize()` or `list_tools()` raising happens after both contexts were
entered. -/
inductive SrvOutcome where
  | ok
  | failTransport
  | failSession
  | failInit
deriving DecidableEq

/-- The `AsyncExitStack`: entered contexts in acquisition order. -/
structure ExitStack where
  entries : List Res
deriving DecidableEq

/-- `AsyncExitStack.aclose()` per the `contextlib` contract: unwinds the entered
contexts in reverse acquisition order and leaves the stack empty, so a second call
releases nothing. -/
def ExitStack.aclose (es : ExitStack) : List Res × ExitStack :=
  (es.entries.reverse, ⟨[]⟩)

/-- Lines 36-46 for one server: enter the transport, then the session, on the exit
stack; returns the new stack and whether this server initialized. -/
def acquireServer (oc : SrvOutcome) (i : Nat) (es : ExitStack) : ExitStack × Bool :=
  match oc with
  | .failTransport => (es, false)
  | .failSession => (⟨es.entries ++ [.transport i]⟩, false)
  | .failInit => (⟨es.entries ++ [.transport i, .session i]⟩, false)
  | .ok => (⟨es.entries ++ [.transport i, .session i]⟩, true)

/-- The `for i, server_source in enumerate(...)` loop, resource aspect: the first
failing server aborts the loop (its exception propagates out of
`initialize_sessions`), leaving every already-entered context on the stack. -/
def initResFrom (oc : Nat → SrvOutcome) : Nat → Nat → ExitStack → ExitStack × Bool
  | _, 0, es => (es, true)
  | i, n + 1, es =>
    match acquireServer (oc i) i es with
    | (es', true) => initResFrom oc (i + 1) n es'
    | (es', false) => (es', false)

/-- `initialize_sessions` over `n` servers, resource aspect, starting from the empty
exit stack built in `__init__` (line 27). -/
def initializeSessionsRes (oc : Nat → SrvOutcome) (n : Nat) : ExitStack × Bool :=
  initResFrom oc 0 n ⟨[]⟩

/-- `cleanup` (lines 82-86): `await self.exit_stack.aclose()`; returns the released
resources in release order together with the stack left behind.  `main` invokes it
in a `finally` block (lines 195-199), hence on every exit path. -/
def cleanup (es : ExitStack) : List Res × ExitStack := es.aclose

/-- Numeric value of a decimal digit character. -/
def digitVal (c : Char) : Nat := c.toNat - '0'.toNat

/-- Numeric value of a decimal digit string. -/
def valOfDigits (ds : List Char) : Nat := ds.foldl (fun a c => 10 * a + digitVal c) 0

/-- The mapping entries contributed by server `i` advertising the tools `ts`. -/
def entriesFor (i : Nat) (ts : List ToolDesc) : ToolMapping :=
  ts.map fun t => (serverId i ++ "_" ++ t.name, (i, t.name))

/-- The mapping entries contributed by the servers `i, i + 1, ...` advertising `svs`. -/
def entriesFrom : Nat → List (List ToolDesc) → ToolMapping
  | _, [] => []
  | i, ts :: rest => entriesFor i ts ++ entriesFrom (i + 1) rest

/-- A request that resolves in the mapping, whose argument string parses, and whose
invocation returns a result object instead of raising. -/
def Completes (env : Env) (mapping : ToolMapping) (tc : ToolCall) : Prop :=
  ∃ sess orig a c, lookupMapping mapping tc.name = some (sess, orig)
    ∧ env.parse tc.arguments = some a ∧ env.callTool sess orig a = .ok c

/-- The `call_tool` events one processed request contributes to the trace. -/
def callEventFor (env : Env) (mapping : ToolMapping) (tc : ToolCall) : List Event :=
  match lookupMapping mapping tc.name, env.parse tc.arguments with
  | some (sess, orig), some a => [.call sess orig a]
  | _, _ => []

/-- The conversation messages one processed request appends. -/
def msgsFor (env : Env) (mapping : ToolMapping) (tc : ToolCall) : List Msg :=
  match lookupMapping mapping tc.name, env.parse tc.arguments with
  | some (sess, orig), some a =>
    match env.callTool sess orig a with
    | .ok c => [.assistantToolCall tc.id tc.name a, .tool tc.id c]
    | .raiseExc _ => []
  | _, _ => []

/-- The transcript fragments one processed request appends. -/
def textsFor (env : Env) (mapping : ToolMapping) (tc : ToolCall) : List String :=
  match lookupMapping mapping tc.name, env.parse tc.arguments with
  | some (sess, orig), some a =>
    match env.callTool sess orig a with
    | .ok c => ["[调用工具 " ++ tc.name ++ " 参数: " ++ a ++ "]", "工具结果: " ++ c]
    | .raiseExc _ => []
  | none, _ => ["工具 " ++ tc.name ++ " 未找到"]
  | some _, none => []

/-- The state carried by either outcome of a tool-call step. -/
def resultState : Except (PyError × QState) QState → QState
  | .ok s => s
  | .error (_, s) => s

/-- The state carried by either outcome of one loop iteration. -/
def iterState : Except (PyError × QState) (ModelResponse × QState) → QState
  | .ok (_, s) => s
  | .error (_, s) => s

/-- Whether one loop iteration completed without a Python exception. -/
def isOkIter : Except (PyError × QState) (ModelResponse × QState) → Bool
  | .ok _ => true
  | .error _ => false

/-- The contexts `initialize_sessions` enters for the servers `i, i + 1, ...` given
their outcomes; the first failing server stops the loop. -/
def addedEntries (oc : Nat → SrvOutcome) : Nat → Nat → List Res
  | _, 0 => []
  | i, n + 1 =>
    match oc i with
    | .failTransport => []
    | .failSession => [.transport i]
    | .failInit => [.transport i, .session i]
    | .ok => .transport i :: .session i :: addedEntries oc (i + 1) n

/-! Concrete environments used as witnesses and counterexamples. -/

/-- Two servers that both expose a tool named `get_weather`. -/
def demoServers : List (List ToolDesc) :=
  [[⟨"get_weather", "城市天气查询", "objA"⟩], [⟨"get_weather", "高德天气查询", "objB"⟩]]

/-- The per-server outcome pattern: servers 0 and 1 initialize, server 2 fails while
entering its `ClientSession`. -/
def demoOutcomes : Nat → SrvOutcome := fun j => if j = 2 then .failSession else .ok

/-- A single-tool mapping as built for one server exposing `echo`. -/
def echoMapping : ToolMapping := [("server0_echo", 0, "echo")]

/-- A single-tool mapping as built for one server exposing `get_weather`. -/
def weatherMapping : ToolMapping := [("server0_get_weather", 0, "get_weather")]

/-- A model that answers the first call without tool calls. -/
def plainEnv : Env :=
  { listTools := fun _ => [("server0", [⟨"echo", "回显", "obj"⟩])]
    respond := fun _ => ⟨some "你好", []⟩
    callTool := fun _ _ _ => .ok "result"
    parse := fun s => some s }

/-- A provider whose advertised tool set grows after the first turn, and a model
whose first response requests `server0_echo` and whose second is final. -/
def growEnv : Env :=
  { listTools := fun n =>
      if n = 0 then [("server0", [⟨"echo", "回显", "obj"⟩])]
      else [("server0", [⟨"echo", "回显", "obj"⟩, ⟨"extra", "新工具", "obj"⟩])]
    respond := fun n =>
      if n = 0 then ⟨some "好的", [⟨"id1", "server0_echo", "x=1"⟩]⟩ else ⟨some "完成", []⟩
    callTool := fun _ _ _ => .ok "echo-result"
    parse := fun s => some s }

/-- A model whose first response requests an unregistered tool name. -/
def unknownToolEnv : Env :=
  { listTools := fun _ => []
    respond := fun n =>
      if n = 0 then ⟨some "试试", [⟨"id1", "serverX_foo", "x=1"⟩]⟩ else ⟨none, []⟩
    callTool := fun _ _ _ => .ok "result"
    parse := fun s => some s }

/-- A tool provider whose `call_tool` raises. -/
def raisingEnv : Env :=
  { listTools := fun _ => [("server0", [⟨"get_weather", "天气", "obj"⟩])]
    respond := fun n =>
      if n = 0 then ⟨some "我来查询", [⟨"id1", "server0_get_weather", "city=北京"⟩]⟩
      else ⟨none, []⟩
    callTool := fun _ _ _ => .raiseExc "connection lost"
    parse := fun s => some s }

/-- A model that requests one resolvable, succeeding tool call on every response. -/
def insistEnv : Env :=
  { listTools := fun _ => [("server0", [⟨"echo", "回显", "obj"⟩])]
    respond := fun _ => ⟨none, [⟨"id1", "server0_echo", "x=1"⟩]⟩
    callTool := fun _ _ _ => .ok "done"
    parse := fun s => some s }

/-- A model whose first response requests a resolvable tool with an argument string
that `json.loads` rejects. -/
def badArgsEnv : Env :=
  { listTools := fun _ => [("server0", [⟨"echo", "回显", "obj"⟩])]
    respond := fun n =>
      if n = 0 then ⟨some "好", [⟨"id1", "server0_echo", "not-json"⟩]⟩ else ⟨none, []⟩
    callTool := fun _ _ _ => .ok "done"
    parse := fun s => if s = "not-json" then none else some s }

/-- The state after one full loop iteration under `insistEnv`. -/
def insistStep (s : QState) : QState :=
  { messages := s.messages
      ++ [.assistantToolCall "id1" "server0_echo" "x=1", .tool "id1" "done"]
    final_text := s.final_text ++ ["[调用工具 server0_echo 参数: x=1]", "工具结果: done"]
    infCalls := s.infCalls + 1
    trace := (s.trace ++ [.call 0 "echo" "x=1"])
      ++ [.inference (availableTools (insistEnv.listTools 0))] }

/-! Facts about `Nat.repr`, needed for uniqueness of the prefixed names that the
generated ids `server0`, `server1`, ... give rise to. -/

/-- Structural form of the base-10 rendering computed by `Nat.toDigits 10`. -/
def decDigits (n : Nat) : List Char :=
  if h : n < 10 then [Nat.digitChar n]
  else
    have : n / 10 < n := Nat.div_lt_self (by omega) (by omega)
    decDigits (n / 10) ++ [Nat.digitChar (n % 10)]
termination_by n

theorem toDigitsCore_eq_decDigits :
    ∀ (fuel n : Nat) (ds : List Char), n < fuel →
      Nat.toDigitsCore 10 fuel n ds = decDigits n ++ ds := by
  intro fuel
  induction fuel with
  | zero => intro n ds h; omega
  | succ f ih =>
    intro n ds h
    by_cases h10 : n / 10 = 0
    · have hn : n < 10 := by omega
      rw [Nat.toDigitsCore]
      simp only [h10, if_pos]
      rw [decDigits, dif_pos hn, Nat.mod_eq_of_lt hn]
      rfl
    · have hn : ¬ n < 10 := by omega
      rw [Nat.toDigitsCore]
      simp only [h10, if_neg, ite_false]
      rw [ih (n / 10) _ (by omega)]
      conv_rhs => rw [decDigits]
      rw [dif_neg hn, List.append_assoc]
      rfl

theorem foldl_digitVal_append (ds : List Char) (c : Char) (a : Nat) :
    (ds ++ [c]).foldl (fun a c => 10 * a + digitVal c) a
      = 10 * ds.foldl (fun a c => 10 * a + digitVal c) a + digitVal c := by
  rw [List.foldl_append]
  rfl

theorem digitVal_digitChar (d : Nat) (h : d < 10) : digitVal (Nat.digitChar d) = d := by
  interval_cases d <;> rfl

theorem isDigit_digitChar (d : Nat) (h : d < 10) : (Nat.digitChar d).isDigit = true := by
  interval_cases d <;> decide

theorem valOfDigits_decDigits (n : Nat) : valOfDigits (decDigits n) = n := by
  induction n using Nat.strong_induction_on with
  | _ n ih =>
    rw [decDigits]
    by_cases h : n < 10
    · rw [dif_pos h]
      simp [valOfDigits, digitVal_digitChar n h]
    · rw [dif_neg h]
      have hdiv := ih (n / 10) (Nat.div_lt_self (by omega) (by omega))
      unfold valOfDigits at hdiv ⊢
      rw [foldl_digitVal_append, hdiv, digitVal_digitChar _ (Nat.mod_lt n (by omega))]
      omega

theorem mem_decDigits_isDigit (n : Nat) : ∀ c ∈ decDigits n, c.isDigit = true := by
  induction n using Nat.strong_induction_on with
  | _ n ih =>
    rw [decDigits]
    by_cases h : n < 10
    · rw [dif_pos h]
      intro c hc
      rw [List.mem_singleton] at hc
      exact hc ▸ isDigit_digitChar n h
    · rw [dif_neg h]
      intro c hc
      rcases List.mem_append.mp hc with h1 | h1
      · exact ih (n / 10) (Nat.div_lt_self (by omega) (by omega)) c h1
      · rw [List.mem_singleton] at h1
        exact h1 ▸ isDigit_digitChar _ (Nat.mod_lt n (by omega))

theorem repr_data (n : Nat) : (Nat.repr n).data = decDigits n := by
  show (List.asString (Nat.toDigits 10 n)).data = decDigits n
  rw [Nat.toDigits, toDigitsCore_eq_decDigits (n + 1) n [] (Nat.lt_succ_self n)]
  simp [List.asString]

theorem serverId_data_inj {i j : Nat} (h : (serverId i).data = (serverId j).data) : i = j := by
  rw [serverId, serverId, String.data_append, String.data_append, repr_data, repr_data] at h
  have h' := List.append_cancel_left h
  have hi := valOfDigits_decDigits i
  rw [h', valOfDigits_decDigits j] at hi
  omega

theorem underscore_not_mem_serverId (i : Nat) : '_' ∉ (serverId i).data := by
  intro hmem
  rw [serverId, String.data_append] at hmem
  rcases List.mem_append.mp hmem with h | h
  · exact absurd h (by decide)
  · rw [repr_data] at h
    exact absurd (mem_decDigits_isDigit i '_' h) (by decide)

theorem append_sep_inj {c : Char} :
    ∀ (l₁ l₂ r₁ r₂ : List Char), c ∉ l₁ → c ∉ l₂ →
      l₁ ++ c :: r₁ = l₂ ++ c :: r₂ → l₁ = l₂ ∧ r₁ = r₂ := by
  intro l₁
  induction l₁ with
  | nil =>
    intro l₂ r₁ r₂ _ h₂ h
    cases l₂ with
    | nil => simpa using h
    | cons y ys =>
      rw [List.nil_append, List.cons_append, List.cons.injEq] at h
      exact absurd (h.1 ▸ List.mem_cons_self y ys) h₂
  | cons x xs ih =>
    intro l₂ r₁ r₂ h₁ h₂ h
    cases l₂ with
    | nil =>
      rw [List.cons_append, List.nil_append, List.cons.injEq] at h
      exact absurd (h.1 ▸ List.mem_cons_self x xs) h₁
    | cons y ys =>
      rw [List.cons_append, List.cons_append, List.cons.injEq] at h
      obtain ⟨hxy, h'⟩ := h
      have hx : c ∉ xs := fun hc => h₁ (List.mem_cons_of_mem x hc)
      have hy : c ∉ ys := fun hc => h₂ (List.mem_cons_of_mem y hc)
      obtain ⟨he, hr⟩ := ih ys r₁ r₂ hx hy h'
      exact ⟨by rw [hxy, he], hr⟩

theorem string_ext {a b : String} (h : a.data = b.data) : a = b := by
  cases a
  cases b
  simp only at h
  rw [h]

/-- The prefixing scheme `serverId + "_" + originalName` is injective: two equal keys
come from the same server index and the same original tool name. -/
theorem prefixedName_inj {i j : Nat} {a b : String}
    (h : serverId i ++ "_" ++ a = serverId j ++ "_" ++ b) : i = j ∧ a = b := by
  have hd := congrArg String.data h
  simp only [String.data_append] at hd
  rw [List.append_assoc, List.append_assoc, List.singleton_append,
    List.singleton_append] at hd
  obtain ⟨h1, h2⟩ := append_sep_inj _ _ _ _
    (underscore_not_mem_serverId i) (underscore_not_mem_serverId j) hd
  exact ⟨serverId_data_inj h1, string_ext h2⟩

/-! Characterization of the namespace built by `initialize_sessions`. -/

theorem entriesFor_cons (i : Nat) (t : ToolDesc) (rest : List ToolDesc) :
    entriesFor i (t :: rest)
      = (serverId i ++ "_" ++ t.name, (i, t.name)) :: entriesFor i rest := rfl

theorem registerTools_cons (sid : String) (sess : Nat) (t : ToolDesc) (rest : List ToolDesc)
    (m : ToolMapping) :
    registerTools sid sess (t :: rest) m
      = registerTools sid sess rest (insertOverwrite m (sid ++ "_" ++ t.name) (sess, t.name)) :=
  rfl

theorem insertOverwrite_fresh (m : ToolMapping) (k : String) (v : Nat × String)
    (h : k ∉ m.map Prod.fst) : insertOverwrite m k v = m ++ [(k, v)] := by
  induction m with
  | nil => rfl
  | cons e rest ih =>
    obtain ⟨k', v'⟩ := e
    simp only [List.map_cons, List.mem_cons, not_or] at h
    rw [insertOverwrite, if_neg (fun hk => h.1 hk.symm), ih h.2, List.cons_append]

theorem registerTools_fresh (i : Nat) (ts : List ToolDesc) (m : ToolMapping)
    (hnd : (ts.map ToolDesc.name).Nodup)
    (hfresh : ∀ t ∈ ts, serverId i ++ "_" ++ t.name ∉ m.map Prod.fst) :
    registerTools (serverId i) i ts m = m ++ entriesFor i ts := by
  induction ts generalizing m with
  | nil => simp [registerTools, entriesFor]
  | cons t rest ih =>
    rw [registerTools_cons,
      insertOverwrite_fresh m _ _ (hfresh t (List.mem_cons_self t rest))]
    rw [List.map_cons, List.nodup_cons] at hnd
    rw [ih _ hnd.2 ?_, entriesFor_cons, List.append_assoc, List.singleton_append]
    intro u hu
    rw [List.map_append, List.mem_append, not_or]
    refine ⟨hfresh u (List.mem_cons_of_mem t hu), ?_⟩
    intro hk
    simp only [List.map_cons, List.map_nil, List.mem_singleton] at hk
    have := (prefixedName_inj hk).2
    exact hnd.1 (this ▸ List.mem_map_of_mem ToolDesc.name hu)

theorem key_mem_entriesFor {k : String} {i : Nat} {ts : List ToolDesc}
    (h : k ∈ (entriesFor i ts).map Prod.fst) : ∃ t ∈ ts, k = serverId i ++ "_" ++ t.name := by
  rw [entriesFor, List.map_map] at h
  obtain ⟨t, ht, hk⟩ := List.mem_map.mp h
  exact ⟨t, ht, hk.symm⟩

theorem key_mem_entriesFrom {k : String} :
    ∀ (i : Nat) (svs : List (List ToolDesc)),
      k ∈ (entriesFrom i svs).map Prod.fst → ∃ j nm, i ≤ j ∧ k = serverId j ++ "_" ++ nm := by
  intro i svs
  induction svs generalizing i with
  | nil => intro h; simp [entriesFrom] at h
  | cons ts rest ih =>
    intro h
    rw [entriesFrom, List.map_append, List.mem_append] at h
    rcases h with h | h
    · obtain ⟨t, _, hk⟩ := key_mem_entriesFor h
      exact ⟨i, t.name, Nat.le_refl i, hk⟩
    · obtain ⟨j, nm, hj, hk⟩ := ih (i + 1) h
      exact ⟨j, nm, by omega, hk⟩

theorem nodup_keys_entriesFor (i : Nat) (ts : List ToolDesc)
    (h : (ts.map ToolDesc.name).Nodup) : ((entriesFor i ts).map Prod.fst).Nodup := by
  rw [entriesFor, List.map_map]
  have : (Prod.fst ∘ fun t : ToolDesc => (serverId i ++ "_" ++ t.name, (i, t.name)))
      = (fun nm => serverId i ++ "_" ++ nm) ∘ ToolDesc.name := rfl
  rw [this, ← List.map_map]
  exact h.map fun a b hab => (prefixedName_inj hab).2

theorem nodup_keys_entriesFrom (svs : List (List ToolDesc)) :
    ∀ i, (∀ ts ∈ svs, (ts.map ToolDesc.name).Nodup) →
      ((entriesFrom i svs).map Prod.fst).Nodup := by
  induction svs with
  | nil => intro i _; simp [entriesFrom]
  | cons ts rest ih =>
    intro i h
    rw [entriesFrom, List.map_append]
    refine List.Nodup.append (nodup_keys_entriesFor i ts (h ts (List.mem_cons_self ts rest)))
      (ih (i + 1) fun ts' h' => h ts' (List.mem_cons_of_mem ts h')) ?_
    intro k hk1 hk2
    obtain ⟨t, _, rfl⟩ := key_mem_entriesFor hk1
    obtain ⟨j, nm, hj, hk⟩ := key_mem_entriesFrom (i + 1) rest hk2
    obtain ⟨hij, -⟩ := prefixedName_inj hk
    omega

theorem length_entriesFrom (svs : List (List ToolDesc)) :
    ∀ i, (entriesFrom i svs).length = (svs.map List.length).sum := by
  induction svs with
  | nil => intro i; rfl
  | cons ts rest ih =>
    intro i
    rw [entriesFrom, List.length_append, List.map_cons, List.sum_cons, ih (i + 1)]
    simp [entriesFor]

theorem mem_entriesFor_shape {e : String × Nat × String} {i : Nat} {ts : List ToolDesc}
    (h : e ∈ entriesFor i ts) : e.1 = serverId e.2.1 ++ "_" ++ e.2.2 := by
  rw [entriesFor] at h
  obtain ⟨t, _, rfl⟩ := List.mem_map.mp h
  rfl

theorem mem_entriesFrom_shape {e : String × Nat × String} :
    ∀ (i : Nat) (svs : List (List ToolDesc)),
      e ∈ entriesFrom i svs → e.1 = serverId e.2.1 ++ "_" ++ e.2.2 := by
  intro i svs
  induction svs generalizing i with
  | nil => intro h; simp [entriesFrom] at h
  | cons ts rest ih =>
    intro h
    rw [entriesFrom, List.mem_append] at h
    rcases h with h | h
    · exact mem_entriesFor_shape h
    · exact ih (i + 1) h

theorem lookupMapping_append_left {m₁ m₂ : ToolMapping} {k : String} {v : Nat × String}
    (h : lookupMapping m₁ k = some v) : lookupMapping (m₁ ++ m₂) k = some v := by
  induction m₁ with
  | nil => exact absurd h (by simp [lookupMapping])
  | cons e rest ih =>
    obtain ⟨k', v'⟩ := e
    rw [List.cons_append, lookupMapping]
    rw [lookupMapping] at h
    by_cases hk : k' = k
    · rwa [if_pos hk] at h ⊢
    · rw [if_neg hk] at h ⊢
      exact ih h

theorem lookupMapping_append_right {m₁ m₂ : ToolMapping} {k : String}
    (h : lookupMapping m₁ k = none) : lookupMapping (m₁ ++ m₂) k = lookupMapping m₂ k := by
  induction m₁ with
  | nil => rfl
  | cons e rest ih =>
    obtain ⟨k', v'⟩ := e
    rw [List.cons_append, lookupMapping]
    rw [lookupMapping] at h
    by_cases hk : k' = k
    · rw [if_pos hk] at h
      exact absurd h (by simp)
    · rw [if_neg hk] at h ⊢
      exact ih h

theorem lookupMapping_entriesFor_self {i : Nat} {ts : List ToolDesc} {t : ToolDesc}
    (ht : t ∈ ts) :
    lookupMapping (entriesFor i ts) (serverId i ++ "_" ++ t.name) = some (i, t.name) := by
  induction ts with
  | nil => cases ht
  | cons u rest ih =>
    rw [entriesFor_cons, lookupMapping]
    by_cases hk : serverId i ++ "_" ++ u.name = serverId i ++ "_" ++ t.name
    · rw [if_pos hk, (prefixedName_inj hk).2]
    · rw [if_neg hk]
      rcases List.mem_cons.mp ht with rfl | h
      · exact absurd rfl hk
      · exact ih h

theorem lookupMapping_entriesFor_other {i j : Nat} {nm : String} {ts : List ToolDesc}
    (hij : i ≠ j) :
    lookupMapping (entriesFor i ts) (serverId j ++ "_" ++ nm) = none := by
  induction ts with
  | nil => rfl
  | cons u rest ih =>
    rw [entriesFor_cons, lookupMapping, if_neg fun hk => hij (prefixedName_inj hk).1]
    exact ih

theorem lookupMapping_entriesFrom {svs : List (List ToolDesc)} :
    ∀ (i k : Nat) (ts : List ToolDesc) (t : ToolDesc),
      svs[k]? = some ts → t ∈ ts →
      lookupMapping (entriesFrom i svs) (serverId (i + k) ++ "_" ++ t.name)
        = some (i + k, t.name) := by
  induction svs with
  | nil => intro i k ts t h; simp at h
  | cons ts0 rest ih =>
    intro i k ts t h ht
    cases k with
    | zero =>
      rw [List.getElem?_cons_zero, Option.some.injEq] at h
      subst h
      rw [entriesFrom, Nat.add_zero]
      exact lookupMapping_append_left (lookupMapping_entriesFor_self ht)
    | succ k' =>
      rw [List.getElem?_cons_succ] at h
      rw [entriesFrom,
        lookupMapping_append_right (lookupMapping_entriesFor_other (by omega)),
        show i + (k' + 1) = (i + 1) + k' by omega]
      exact ih (i + 1) k' ts t h ht

theorem initFrom_eq (servers : List (List ToolDesc)) :
    ∀ (i : Nat) (m : ToolMapping),
      (∀ ts ∈ servers, (ts.map ToolDesc.name).Nodup) →
      (∀ e ∈ entriesFrom i servers, e.1 ∉ m.map Prod.fst) →
      initFrom i servers m = m ++ entriesFrom i servers := by
  induction servers with
  | nil => intro i m _ _; simp [initFrom, entriesFrom]
  | cons ts rest ih =>
    intro i m hnd hfresh
    rw [initFrom,
      registerTools_fresh i ts m (hnd ts (List.mem_cons_self ts rest)) ?side1,
      ih (i + 1) _ (fun ts' h' => hnd ts' (List.mem_cons_of_mem ts h')) ?side2,
      entriesFrom, List.append_assoc]
    case side1 =>
      intro t ht hk
      refine hfresh (serverId i ++ "_" ++ t.name, (i, t.name)) ?_ hk
      rw [entriesFrom, List.mem_append, entriesFor]
      exact Or.inl (List.mem_map_of_mem _ ht)
    case side2 =>
      intro e he
      rw [List.map_append, List.mem_append, not_or]
      refine ⟨hfresh e ?_, ?_⟩
      · rw [entriesFrom, List.mem_append]
        exact Or.inr he
      · intro hk
        obtain ⟨t, _, hk'⟩ := key_mem_entriesFor hk
        obtain ⟨j, nm, hj, hk''⟩ := key_mem_entriesFrom (i + 1) rest
          (List.mem_map_of_mem Prod.fst he)
        rw [hk''] at hk'
        obtain ⟨hij, -⟩ := prefixedName_inj hk'
        omega

theorem initializeSessions_eq (servers : List (List ToolDesc))
    (hnd : ∀ ts ∈ servers, (ts.map ToolDesc.name).Nodup) :
    initializeSessions servers = entriesFrom 0 servers := by
  rw [initializeSessions, initFrom_eq servers 0 [] hnd (by intro e _; simp)]
  rfl

/-! Behavior of the tool-call loop. -/

theorem processToolCalls_completes (env : Env) (mapping : ToolMapping) :
    ∀ (tcs : List ToolCall) (s : QState), (∀ tc ∈ tcs, Completes env mapping tc) →
      processToolCalls env mapping tcs s = .ok
        { messages := s.messages ++ tcs.flatMap (msgsFor env mapping)
          final_text := s.final_text ++ tcs.flatMap (textsFor env mapping)
          infCalls := s.infCalls
          trace := s.trace ++ tcs.flatMap (callEventFor env mapping) } := by
  intro tcs
  induction tcs with
  | nil => intro s _; simp [processToolCalls]
  | cons tc rest ih =>
    intro s hc
    obtain ⟨sess, orig, a, c, h1, h2, h3⟩ := hc tc (List.mem_cons_self tc rest)
    rw [processToolCalls, processOneToolCall, h1, h2]
    simp only [h3, ih _ fun u hu => hc u (List.mem_cons_of_mem tc hu)]
    simp only [List.flatMap_cons, msgsFor, textsFor, callEventFor, h1, h2, h3]
    simp [List.append_assoc]

theorem length_bind_callEventFor (env : Env) (mapping : ToolMapping) :
    ∀ tcs : List ToolCall, (∀ tc ∈ tcs, Completes env mapping tc) →
      (tcs.flatMap (callEventFor env mapping)).length = tcs.length := by
  intro tcs
  induction tcs with
  | nil => intro _; rfl
  | cons tc rest ih =>
    intro hc
    obtain ⟨sess, orig, a, c, h1, h2, h3⟩ := hc tc (List.mem_cons_self tc rest)
    rw [List.flatMap_cons, List.length_append, ih fun u hu => hc u (List.mem_cons_of_mem tc hu)]
    simp only [callEventFor, h1, h2]
    simp [Nat.add_comm]

theorem processOneToolCall_trace (env : Env) (mapping : ToolMapping) (tc : ToolCall)
    (s : QState) :
    ∃ evs : List Event, (∀ cat, Event.inference cat ∉ evs)
      ∧ (resultState (processOneToolCall env mapping tc s)).trace = s.trace ++ evs := by
  rw [processOneToolCall]
  cases hl : lookupMapping mapping tc.name with
  | none => exact ⟨[], by simp, by simp [resultState]⟩
  | some p =>
    obtain ⟨sess, orig⟩ := p
    cases hp : env.parse tc.arguments with
    | none => exact ⟨[], by simp, by simp [resultState]⟩
    | some a =>
      cases ho : env.callTool sess orig a with
      | ok c => exact ⟨[.call sess orig a], by simp, by simp [resultState, ho]⟩
      | raiseExc m => exact ⟨[.call sess orig a], by simp, by simp [resultState, ho]⟩

theorem processToolCalls_trace (env : Env) (mapping : ToolMapping) :
    ∀ (tcs : List ToolCall) (s : QState),
      ∃ evs : List Event, (∀ cat, Event.inference cat ∉ evs)
        ∧ (resultState (processToolCalls env mapping tcs s)).trace = s.trace ++ evs := by
  intro tcs
  induction tcs with
  | nil => intro s; exact ⟨[], by simp, by simp [processToolCalls, resultState]⟩
  | cons tc rest ih =>
    intro s
    rw [processToolCalls]
    cases h : processOneToolCall env mapping tc s with
    | ok s' =>
      obtain ⟨evs1, h1, h1t⟩ := processOneToolCall_trace env mapping tc s
      rw [h] at h1t
      obtain ⟨evs2, h2, h2t⟩ := ih s'
      refine ⟨evs1 ++ evs2, ?_, ?_⟩
      · intro cat hc
        rcases List.mem_append.mp hc with hc | hc
        · exact h1 cat hc
        · exact h2 cat hc
      · rw [h2t]
        simp only [resultState] at h1t
        rw [h1t, List.append_assoc]
    | error e =>
      obtain ⟨evs1, h1, h1t⟩ := processOneToolCall_trace env mapping tc s
      rw [h] at h1t
      exact ⟨evs1, h1, h1t⟩

theorem runIteration_trace (env : Env) (mapping : ToolMapping) (tools : List OpenAITool)
    (msg : ModelResponse) (s : QState) :
    ∃ evs : List Event, (∀ cat, Event.inference cat ∈ evs → cat = tools)
      ∧ (iterState (runIteration env mapping tools msg s)).trace = s.trace ++ evs := by
  rw [runIteration]
  cases h : processToolCalls env mapping msg.tool_calls s with
  | error e =>
    obtain ⟨evs, h1, h1t⟩ := processToolCalls_trace env mapping msg.tool_calls s
    rw [h] at h1t
    exact ⟨evs, fun cat hc => absurd hc (h1 cat), h1t⟩
  | ok s' =>
    obtain ⟨evs, h1, h1t⟩ := processToolCalls_trace env mapping msg.tool_calls s
    rw [h] at h1t
    simp only [resultState] at h1t
    refine ⟨evs ++ [.inference tools], ?_, ?_⟩
    · intro cat hc
      rcases List.mem_append.mp hc with hc | hc
      · exact absurd hc (h1 cat)
      · rw [List.mem_singleton] at hc
        exact (Event.inference.injEq cat tools).mp hc
    · cases hct : contentTruthy (env.respond s'.infCalls).content <;>
        simp [iterState, h1t, hct, List.append_assoc]

theorem queryLoop_inference_catalogs (env : Env) (mapping : ToolMapping)
    (tools : List OpenAITool) :
    ∀ (fuel : Nat) (msg : ModelResponse) (s : QState),
      (∀ cat, Event.inference cat ∈ s.trace → cat = tools) →
      ∀ cat, Event.inference cat ∈ (queryLoop env mapping tools fuel msg s).state.trace →
        cat = tools := by
  intro fuel
  induction fuel with
  | zero =>
    intro msg s hP cat
    rw [queryLoop]
    cases msg.tool_calls.isEmpty <;> simp [LoopOut.state] <;> exact hP cat
  | succ f ih =>
    intro msg s hP cat
    rw [queryLoop]
    cases he : msg.tool_calls.isEmpty with
    | true => simp only [if_pos rfl, LoopOut.state]; exact hP cat
    | false =>
      simp only [Bool.false_eq_true, if_neg, ite_false]
      obtain ⟨evs, h1, h1t⟩ := runIteration_trace env mapping tools msg s
      cases hr : runIteration env mapping tools msg s with
      | error e =>
        obtain ⟨pe, s'⟩ := e
        rw [hr] at h1t
        simp only [iterState] at h1t
        simp only [LoopOut.state]
        rw [h1t]
        intro hc
        rcases List.mem_append.mp hc with hc | hc
        · exact hP cat hc
        · exact h1 cat hc
      | ok p =>
        obtain ⟨msg', s'⟩ := p
        rw [hr] at h1t
        simp only [iterState] at h1t
        refine ih msg' s' ?_ cat
        intro cat' hc
        rw [h1t] at hc
        rcases List.mem_append.mp hc with hc | hc
        · exact hP cat' hc
        · exact h1 cat' hc

/-! The exit stack after initialization. -/

theorem initResFrom_entries (oc : Nat → SrvOutcome) :
    ∀ (n i : Nat) (es : ExitStack),
      (initResFrom oc i n es).1.entries = es.entries ++ addedEntries oc i n := by
  intro n
  induction n with
  | zero => intro i es; simp [initResFrom, addedEntries]
  | succ m ih =>
    intro i es
    rw [initResFrom, addedEntries]
    cases h : oc i <;> simp [acquireServer, h, ih, List.append_assoc]

theorem mem_addedEntries_idx (oc : Nat → SrvOutcome) :
    ∀ (n i : Nat) (r : Res), r ∈ addedEntries oc i n → i ≤ r.idx := by
  intro n
  induction n with
  | zero => intro i r h; simp [addedEntries] at h
  | succ m ih =>
    intro i r h
    rw [addedEntries] at h
    cases hc : oc i <;> rw [hc] at h
    · rcases List.mem_cons.mp h with rfl | h
      · exact Nat.le_refl i
      · rcases List.mem_cons.mp h with rfl | h
        · exact Nat.le_refl i
        · exact Nat.le_of_lt (Nat.lt_of_lt_of_le (Nat.lt_succ_self i) (ih (i + 1) r h))
    · simp at h
    · rw [List.mem_singleton] at h
      exact h ▸ Nat.le_refl i
    · rcases List.mem_cons.mp h with rfl | h
      · exact Nat.le_refl i
      · rw [List.mem_singleton] at h
        exact h ▸ Nat.le_refl i

theorem addedEntries_nodup (oc : Nat → SrvOutcome) :
    ∀ (n i : Nat), (addedEntries oc i n).Nodup := by
  intro n
  induction n with
  | zero => intro i; simp [addedEntries]
  | succ m ih =>
    intro i
    rw [addedEntries]
    cases hc : oc i
    · rw [List.nodup_cons, List.nodup_cons]
      refine ⟨?_, ?_, ih (i + 1)⟩
      · intro h
        rcases List.mem_cons.mp h with h | h
        · cases h
        · have := mem_addedEntries_idx oc m (i + 1) _ h
          simp [Res.idx] at this
      · intro h
        have := mem_addedEntries_idx oc m (i + 1) _ h
        simp [Res.idx] at this
    · simp
    · simp
    · simp

theorem mem_addedEntries_ok (oc : Nat → SrvOutcome) :
    ∀ (n i j : Nat), j < n → (∀ l, l ≤ j → oc (i + l) = .ok) →
      Res.transport (i + j) ∈ addedEntries oc i n
        ∧ Res.session (i + j) ∈ addedEntries oc i n := by
  intro n
  induction n with
  | zero => intro i j h; omega
  | succ m ih =>
    intro i j hj hok
    have h0 : oc i = .ok := by
      have := hok 0 (Nat.zero_le j)
      rwa [Nat.add_zero] at this
    rw [addedEntries, h0]
    cases j with
    | zero => exact ⟨by simp, by simp⟩
    | succ j' =>
      have hrec := ih (i + 1) j' (by omega) fun l hl => by
        rw [show i + 1 + l = i + (l + 1) by omega]
        exact hok (l + 1) (by omega)
      rw [show i + (j' + 1) = i + 1 + j' by omega]
      exact ⟨List.mem_cons_of_mem _ (List.mem_cons_of_mem _ hrec.1),
        List.mem_cons_of_mem _ (List.mem_cons_of_mem _ hrec.2)⟩

theorem length_bind_msgsFor (env : Env) (mapping : ToolMapping) :
    ∀ tcs : List ToolCall, (∀ tc ∈ tcs, Completes env mapping tc) →
      (tcs.flatMap (msgsFor env mapping)).length = 2 * tcs.length := by
  intro tcs
  induction tcs with
  | nil => intro _; rfl
  | cons tc rest ih =>
    intro hc
    obtain ⟨sess, orig, a, c, h1, h2, h3⟩ := hc tc (List.mem_cons_self tc rest)
    rw [List.flatMap_cons, List.length_append, ih fun u hu => hc u (List.mem_cons_of_mem tc hu)]
    simp only [msgsFor, h1, h2, h3]
    simp [List.length_cons]
    omega

/-! Claim theorems. -/

/-- C8: after initializing N servers whose tool names may overlap across servers
(each server advertising pairwise distinct names), the tool namespace has exactly
the sum of the per-server tool counts, every key is unique and equals
`serverId + "_" + originalName`, and each key resolves back to its originating
(session, original name) pair. -/
theorem initialize_sessions_namespace (servers : List (List ToolDesc))
    (hnd : ∀ ts ∈ servers, (ts.map ToolDesc.name).Nodup) :
    (initializeSessions servers).length = (servers.map List.length).sum
      ∧ ((initializeSessions servers).map Prod.fst).Nodup
      ∧ (∀ e ∈ initializeSessions servers, e.1 = serverId e.2.1 ++ "_" ++ e.2.2)
      ∧ ∀ (k : Nat) (ts : List ToolDesc) (t : ToolDesc), servers[k]? = some ts → t ∈ ts →
          lookupMapping (initializeSessions servers) (serverId k ++ "_" ++ t.name)
            = some (k, t.name) := by
  rw [initializeSessions_eq servers hnd]
  refine ⟨length_entriesFrom servers 0, nodup_keys_entriesFrom servers 0 hnd, ?_, ?_⟩
  · intro e he
    exact mem_entriesFrom_shape 0 servers he
  · intro k ts t hk ht
    have h := lookupMapping_entriesFrom 0 k ts t hk ht
    rwa [Nat.zero_add] at h

/-- Witness for C8: two servers both exposing `get_weather` yield two distinct keys,
each resolving to its own session. -/
theorem initialize_sessions_namespace_witness :
    (initializeSessions demoServers).length = 2
      ∧ lookupMapping (initializeSessions demoServers) "server0_get_weather"
          = some (0, "get_weather")
      ∧ lookupMapping (initializeSessions demoServers) "server1_get_weather"
          = some (1, "get_weather") := by
  have h := initialize_sessions_namespace demoServers (by decide)
  refine ⟨h.1.trans (by decide), ?_, ?_⟩
  · have h0 := h.2.2.2 0 demoServers[0] ⟨"get_weather", "城市天气查询", "objA"⟩ (by decide)
      (by decide)
    exact (show serverId 0 ++ "_" ++ "get_weather" = "server0_get_weather" by decide) ▸ h0
  · have h1 := h.2.2.2 1 demoServers[1] ⟨"get_weather", "高德天气查询", "objB"⟩ (by decide)
      (by decide)
    exact (show serverId 1 ++ "_" ++ "get_weather" = "server1_get_weather" by decide) ▸ h1

/-- C5 counterexample: registering the same server id twice with an equally named
tool (the spec's duplicate-server-id configuration error) is not detected:
registration completes normally and the second insert replaces session 0's entry by
session 1's, so the collision is resolved by silently overwriting, contradicting
the claim that it is reported as a fatal error and never overwrites. -/
theorem register_collision_overwrites_counterexample :
    lookupMapping (registerTools "server0" 0 [⟨"get_weather", "d0", "s0"⟩] [])
        "server0_get_weather" = some (0, "get_weather")
      ∧ registerTools "server0" 1 [⟨"get_weather", "d1", "s1"⟩]
          (registerTools "server0" 0 [⟨"get_weather", "d0", "s0"⟩] [])
        = [("server0_get_weather", 1, "get_weather")] := by decide

theorem lookupMapping_insertOverwrite_self (m : ToolMapping) (k : String)
    (v : Nat × String) : lookupMapping (insertOverwrite m k v) k = some v := by
  induction m with
  | nil => simp [insertOverwrite, lookupMapping]
  | cons e rest ih =>
    obtain ⟨k', v'⟩ := e
    rw [insertOverwrite]
    by_cases hk : k' = k
    · rw [if_pos hk, lookupMapping, if_pos rfl]
    · rw [if_neg hk, lookupMapping, if_neg hk]
      exact ih

/-- C5 (amended): registration performs no collision detection: inserting a prefixed
name that is already present in the mapping silently overwrites the existing entry
with the new (session, original name) value and reports no error. -/
theorem register_overwrites_existing (sid : String) (sess sess' : Nat) (t : ToolDesc)
    (m : ToolMapping) :
    lookupMapping
        (registerTools sid sess' [t]
          (insertOverwrite m (sid ++ "_" ++ t.name) (sess, t.name)))
        (sid ++ "_" ++ t.name)
      = some (sess', t.name) :=
  lookupMapping_insertOverwrite_self _ _ _

/-- C9: on every exit path — whatever each server's outcome, including servers
0..k-1 succeeding and server k failing — cleanup releases exactly the acquired
contexts in strict reverse acquisition order, each exactly once (the entries are
pairwise distinct); the transports and sessions of the successful servers below a
failing one are among the released entries; and a second cleanup releases nothing. -/
theorem cleanup_reverse_release_idempotent (oc : Nat → SrvOutcome) (n : Nat) :
    (cleanup (initializeSessionsRes oc n).1).1
        = (initializeSessionsRes oc n).1.entries.reverse
      ∧ (initializeSessionsRes oc n).1.entries.Nodup
      ∧ (cleanup (cleanup (initializeSessionsRes oc n).1).2).1 = []
      ∧ ∀ k, k < n → (∀ j, j < k → oc j = .ok) → ∀ j, j < k →
          Res.transport j ∈ (initializeSessionsRes oc n).1.entries
            ∧ Res.session j ∈ (initializeSessionsRes oc n).1.entries := by
  have he : (initializeSessionsRes oc n).1.entries = addedEntries oc 0 n := by
    rw [initializeSessionsRes, initResFrom_entries oc n 0 ⟨[]⟩]
    rfl
  refine ⟨rfl, ?_, rfl, ?_⟩
  · rw [he]
    exact addedEntries_nodup oc n 0
  · intro k hk hok j hj
    rw [he]
    have h := mem_addedEntries_ok oc n 0 j (by omega) fun l hl => by
      rw [Nat.zero_add]
      exact hok l (by omega)
    rwa [Nat.zero_add] at h

/-- Witness for C9: four configured servers, server 2 failing while entering its
session: the contexts of servers 0 and 1 are on the stack and released in reverse;
a second cleanup releases nothing. -/
theorem cleanup_reverse_release_idempotent_witness :
    (cleanup (initializeSessionsRes demoOutcomes 4).1).1
        = (initializeSessionsRes demoOutcomes 4).1.entries.reverse
      ∧ Res.transport 1 ∈ (initializeSessionsRes demoOutcomes 4).1.entries
      ∧ Res.session 1 ∈ (initializeSessionsRes demoOutcomes 4).1.entries
      ∧ (cleanup (cleanup (initializeSessionsRes demoOutcomes 4).1).2).1 = [] := by
  have h := cleanup_reverse_release_idempotent demoOutcomes 4
  have hm := h.2.2.2 2 (by decide) (fun j hj => by interval_cases j <;> decide) 1 (by decide)
  exact ⟨h.1, hm.1, hm.2, h.2.2.1⟩

/-- C4 (amended): the tool catalog is computed once per query, from each session's
`list_tools()` at query start; every inference call of the query — not only the
first — is made with that same catalog, so a provider-side change between turns is
not reflected within the query. -/
theorem catalog_computed_once_per_query (env : Env) (mapping : ToolMapping)
    (query : String) (fuel : Nat) :
    ∀ cat, Event.inference cat ∈ (processQuery env mapping query fuel).state.trace →
      cat = availableTools (env.listTools 0) := by
  rw [processQuery]
  apply queryLoop_inference_catalogs
  intro cat hc
  simp only [initialState, List.mem_singleton] at hc
  exact (Event.inference.injEq _ _).mp hc

/-- Witness for C4: a concrete two-turn query in which the second inference call is
also recorded with the query-start catalog. -/
theorem catalog_computed_once_per_query_witness :
    Event.inference (availableTools (growEnv.listTools 0))
        ∈ (processQuery growEnv echoMapping "查询" 2).state.trace
      ∧ availableTools (growEnv.listTools 0) = availableTools (growEnv.listTools 0) :=
  ⟨by decide, catalog_computed_once_per_query growEnv echoMapping "查询" 2 _ (by decide)⟩

/-- C4 counterexample: the provider advertises an extra tool at turn 1, yet both
inference calls of the query carry the turn-0 catalog; the catalog the claim
demands for the second call differs from the one actually sent, so the claim that
the catalog is recomputed from `list_tools()` on every turn is false. -/
theorem catalog_stale_counterexample :
    (processQuery growEnv echoMapping "查询" 2).state.trace.filterMap
        (fun e => match e with
          | Event.inference cat => some cat
          | Event.call _ _ _ => none)
      = [availableTools (growEnv.listTools 0), availableTools (growEnv.listTools 0)]
      ∧ availableTools (growEnv.listTools 0) ≠ availableTools (growEnv.listTools 1) := by
  decide

/-- C7: if the model's first response carries zero tool-call requests, process_query
makes exactly one inference call and returns that response's initial text content
only. -/
theorem zero_tool_calls_single_inference (env : Env) (mapping : ToolMapping)
    (query : String) (fuel : Nat) (h : (env.respond 0).tool_calls = []) :
    processQuery env mapping query fuel = .done (initialState env query)
      ∧ (initialState env query).infCalls = 1
      ∧ (initialState env query).trace = [.inference (availableTools (env.listTools 0))]
      ∧ outputOf (initialState env query) = (env.respond 0).content.getD "" := by
  refine ⟨?_, rfl, rfl, rfl⟩
  rw [processQuery, queryLoop.eq_def]
  simp [h]

/-- Witness for C7: a concrete query answered directly, output `你好`. -/
theorem zero_tool_calls_single_inference_witness :
    processQuery plainEnv echoMapping "打个招呼" 5 = .done (initialState plainEnv "打个招呼")
      ∧ (initialState plainEnv "打个招呼").infCalls = 1
      ∧ (initialState plainEnv "打个招呼").trace
          = [.inference (availableTools (plainEnv.listTools 0))]
      ∧ outputOf (initialState plainEnv "打个招呼") = (plainEnv.respond 0).content.getD "" :=
  zero_tool_calls_single_inference plainEnv echoMapping "打个招呼" 5 rfl

/-- C10: a tool-call request that resolves in the mapping but whose serialized
argument string is not valid JSON makes `json.loads` (line 140, outside the
`try` around `call_tool`) raise out of process_query: the run aborts with the
decode error while the conversation still holds only the user message and the
trace records no `call_tool` invocation — the failure is not captured as a tool
result. -/
theorem malformed_arguments_escape (env : Env) (mapping : ToolMapping) (query : String)
    (fuel : Nat) (tc : ToolCall) (rest : List ToolCall)
    (hmsg : (env.respond 0).tool_calls = tc :: rest)
    (hres : (lookupMapping mapping tc.name).isSome)
    (hparse : env.parse tc.arguments = none)
    (hfuel : 0 < fuel) :
    processQuery env mapping query fuel
        = .raised (.jsonDecodeError tc.arguments) (initialState env query)
      ∧ (initialState env query).messages = [.user query]
      ∧ (initialState env query).trace = [.inference (availableTools (env.listTools 0))] := by
  refine ⟨?_, rfl, rfl⟩
  obtain ⟨f, rfl⟩ : ∃ f, fuel = f + 1 := ⟨fuel - 1, by omega⟩
  obtain ⟨p, hp⟩ := Option.isSome_iff_exists.mp hres
  obtain ⟨sess, orig⟩ := p
  rw [processQuery, queryLoop.eq_def]
  simp only [hmsg, List.isEmpty_cons, Bool.false_eq_true, if_false,
    runIteration, processToolCalls, processOneToolCall, hp, hparse]

/-- Witness for C10: the concrete argument string `not-json` aborts the query with
the decode error. -/
theorem malformed_arguments_escape_witness :
    processQuery badArgsEnv echoMapping "你好" 3
        = .raised (.jsonDecodeError "not-json") (initialState badArgsEnv "你好")
      ∧ (initialState badArgsEnv "你好").messages = [.user "你好"]
      ∧ (initialState badArgsEnv "你好").trace
          = [.inference (availableTools (badArgsEnv.listTools 0))] := by
  have h := malformed_arguments_escape badArgsEnv echoMapping "你好" 3
    ⟨"id1", "server0_echo", "not-json"⟩ [] (by decide) (by decide) (by decide) (by decide)
  exact h

/-- C3 (amended): a tool-call request whose prefixed name is not in the mapping
causes no `call_tool` invocation; the "tool not found" note is appended to the
output transcript only — the ConversationState message list and the event trace are
left unchanged — and processing continues with the next request. -/
theorem unresolved_tool_transcript_only (env : Env) (mapping : ToolMapping)
    (tc : ToolCall) (s : QState) (h : lookupMapping mapping tc.name = none) :
    processOneToolCall env mapping tc s
        = .ok { s with final_text := s.final_text ++ ["工具 " ++ tc.name ++ " 未找到"] }
      ∧ ∀ rest, processToolCalls env mapping (tc :: rest) s
          = processToolCalls env mapping rest
              { s with final_text := s.final_text ++ ["工具 " ++ tc.name ++ " 未找到"] } := by
  have h1 : processOneToolCall env mapping tc s
      = .ok { s with final_text := s.final_text ++ ["工具 " ++ tc.name ++ " 未找到"] } := by
    rw [processOneToolCall, h]
  refine ⟨h1, fun rest => ?_⟩
  rw [processToolCalls, h1]

/-- Witness for C3's amended theorem at a concrete unresolved request. -/
theorem unresolved_tool_transcript_only_witness :
    processOneToolCall unknownToolEnv [] ⟨"id1", "serverX_foo", "x=1"⟩
          (initialState unknownToolEnv "问题")
        = .ok { initialState unknownToolEnv "问题" with
            final_text := (initialState unknownToolEnv "问题").final_text
              ++ ["工具 " ++ "serverX_foo" ++ " 未找到"] }
      ∧ processToolCalls unknownToolEnv [] [⟨"id1", "serverX_foo", "x=1"⟩]
          (initialState unknownToolEnv "问题")
        = processToolCalls unknownToolEnv [] []
            { initialState unknownToolEnv "问题" with
              final_text := (initialState unknownToolEnv "问题").final_text
                ++ ["工具 " ++ "serverX_foo" ++ " 未找到"] } := by
  have h := unresolved_tool_transcript_only unknownToolEnv []
    ⟨"id1", "serverX_foo", "x=1"⟩ (initialState unknownToolEnv "问题") rfl
  exact ⟨h.1, h.2 []⟩

/-- C3 counterexample: with an empty mapping, the "not found" note reaches the
output transcript, but the ConversationState message list at the end of the query
still holds only the user message — no "tool not found" message was ever appended
to it, contradicting the claim that the note is appended to both. -/
theorem unresolved_tool_not_in_conversation_counterexample :
    (processQuery unknownToolEnv [] "问题" 2).state.messages = [Msg.user "问题"]
      ∧ "工具 serverX_foo 未找到" ∈ (processQuery unknownToolEnv [] "问题" 2).state.final_text
      ∧ (processQuery unknownToolEnv [] "问题" 2).state.trace
          = [Event.inference [], Event.inference []] := by
  decide

theorem runIteration_of_ok (env : Env) (mapping : ToolMapping) (tools : List OpenAITool)
    (msg : ModelResponse) (s s₁ : QState)
    (h : processToolCalls env mapping msg.tool_calls s = .ok s₁) :
    isOkIter (runIteration env mapping tools msg s) = true
      ∧ (iterState (runIteration env mapping tools msg s)).trace
          = s₁.trace ++ [.inference tools]
      ∧ (iterState (runIteration env mapping tools msg s)).messages = s₁.messages := by
  rw [runIteration, h]
  cases hct : contentTruthy (env.respond s₁.infCalls).content <;>
    simp [isOkIter, iterState, hct]

/-- C6 (amended): a model response whose k ≥ 1 tool-call requests all resolve in the
mapping, with argument strings that parse and invocations that return results,
leads to exactly k `call_tool` invocations, processed in received order and all
before the next inference call, and the ConversationState grows by exactly 2k
messages — per call one assistant-role record of the call and one tool-role record
of the result.  (If an invocation raises instead of returning, the iteration aborts;
see the counterexample.) -/
theorem resolved_calls_growth (env : Env) (mapping : ToolMapping) (tools : List OpenAITool)
    (msg : ModelResponse) (s : QState)
    (hk : msg.tool_calls ≠ [])
    (hc : ∀ tc ∈ msg.tool_calls, Completes env mapping tc) :
    isOkIter (runIteration env mapping tools msg s) = true
      ∧ (iterState (runIteration env mapping tools msg s)).trace
          = s.trace ++ msg.tool_calls.flatMap (callEventFor env mapping)
              ++ [.inference tools]
      ∧ (msg.tool_calls.flatMap (callEventFor env mapping)).length = msg.tool_calls.length
      ∧ (iterState (runIteration env mapping tools msg s)).messages
          = s.messages ++ msg.tool_calls.flatMap (msgsFor env mapping)
      ∧ (iterState (runIteration env mapping tools msg s)).messages.length
          = s.messages.length + 2 * msg.tool_calls.length := by
  have hpt := processToolCalls_completes env mapping msg.tool_calls s hc
  obtain ⟨h1, h2, h3⟩ := runIteration_of_ok env mapping tools msg s _ hpt
  refine ⟨h1, ?_, length_bind_callEventFor env mapping msg.tool_calls hc, ?_, ?_⟩
  · rw [h2]
  · rw [h3]
  · rw [h3, List.length_append, length_bind_msgsFor env mapping msg.tool_calls hc]

/-- Witness for C6's amended theorem at growEnv's first response (k = 1). -/
theorem resolved_calls_growth_witness :
    isOkIter (runIteration growEnv echoMapping (availableTools (growEnv.listTools 0))
        (growEnv.respond 0) (initialState growEnv "查询")) = true
      ∧ (iterState (runIteration growEnv echoMapping (availableTools (growEnv.listTools 0))
            (growEnv.respond 0) (initialState growEnv "查询"))).messages.length
          = (initialState growEnv "查询").messages.length
              + 2 * (growEnv.respond 0).tool_calls.length := by
  have hcall : ∀ tc ∈ (growEnv.respond 0).tool_calls, Completes growEnv echoMapping tc := by
    intro tc htc
    have htc' : tc = ⟨"id1", "server0_echo", "x=1"⟩ := by
      simpa [growEnv] using htc
    subst htc'
    exact ⟨0, "echo", "x=1", "echo-result", rfl, rfl, rfl⟩
  have h := resolved_calls_growth growEnv echoMapping (availableTools (growEnv.listTools 0))
    (growEnv.respond 0) (initialState growEnv "查询") (by decide) hcall
  exact ⟨h.1, h.2.2.2.2⟩

/-- C6 counterexample: a single resolvable request whose invocation raises: the
invocation occurs, but the iteration aborts with `AttributeError` before any
conversation message is appended and before the next inference call — the message
list grows by 0, not by 2k = 2, so the claim as stated is false. -/
theorem raising_call_breaks_growth_counterexample :
    (raisingEnv.respond 0).tool_calls.length = 1
      ∧ lookupMapping weatherMapping "server0_get_weather" = some (0, "get_weather")
      ∧ isOkIter (runIteration raisingEnv weatherMapping
            (availableTools (raisingEnv.listTools 0)) (raisingEnv.respond 0)
            (initialState raisingEnv "北京天气")) = false
      ∧ (iterState (runIteration raisingEnv weatherMapping
            (availableTools (raisingEnv.listTools 0)) (raisingEnv.respond 0)
            (initialState raisingEnv "北京天气"))).messages.length
          = (initialState raisingEnv "北京天气").messages.length
      ∧ (iterState (runIteration raisingEnv weatherMapping
            (availableTools (raisingEnv.listTools 0)) (raisingEnv.respond 0)
            (initialState raisingEnv "北京天气"))).trace
          = (initialState raisingEnv "北京天气").trace
              ++ [Event.call 0 "get_weather" "city=北京"] := by
  decide

/-- C1: contrary to the claim, a raising `call_tool` is not captured as the tool's
result content: the `except` branch binds `result` to a plain dict (line 145), so
line 148 accessing `result.content` raises `AttributeError` out of process_query;
the conversation never receives a tool-role message and the loop does not reach the
next inference call. -/
theorem tool_exception_escapes_process_query :
    processQuery raisingEnv weatherMapping "北京天气" 3
      = .raised .attributeError
          { messages := [.user "北京天气"]
            final_text := ["我来查询", "[调用工具 server0_get_weather 参数: city=北京]"]
            infCalls := 1
            trace := [.inference [⟨"server0_get_weather", "天气", "obj"⟩],
              .call 0 "get_weather" "city=北京"] } := by
  decide

theorem queryLoop_insist (fuel : Nat) :
    ∀ s : QState,
      (queryLoop insistEnv echoMapping (availableTools (insistEnv.listTools 0))
          fuel (insistEnv.respond 0) s).stillLooping = true := by
  induction fuel with
  | zero => intro s; rfl
  | succ f ih =>
    intro s
    have hstep : queryLoop insistEnv echoMapping (availableTools (insistEnv.listTools 0))
          (f + 1) (insistEnv.respond 0) s
        = queryLoop insistEnv echoMapping (availableTools (insistEnv.listTools 0))
          f (insistEnv.respond 0) (insistStep s) := rfl
    rw [hstep]
    exact ih (insistStep s)

/-- C2: the claim fails on the code: process_query has no maximum-turn or wall-clock
guard and no extra terminal state; with a model that requests one resolvable,
succeeding tool call on every response, the while loop is still running after any
number of iterations, so the query never terminates. -/
theorem process_query_no_turn_guard (fuel : Nat) :
    (processQuery insistEnv echoMapping "帮我查询" fuel).stillLooping = true := by
  rw [processQuery]
  exact queryLoop_insist fuel (initialState insistEnv "帮我查询")

end MCPLearn
